import Mathlib

/-!
Verification of the metrics storage engine, persistence adapter and audit
notifier of the `go-metrics-service` repository (package `repository`,
`handler` and `audit`), via a shallow embedding in Lean.

Conventions of the embedding:
* Go `map[string]V` is an association list `List (String × V)` with the
  no-duplicate-keys property that Go maps have by construction; `mapGet`
  is `m[k]` lookup, `mapSet` is `m[k] = v` assignment (replace in place,
  append if absent).
* Go `float64` gauge values are modelled as exact rationals `ℚ`: the engine
  only stores, copies and serializes them — it performs no floating-point
  arithmetic, so the value type is opaque to every verified property.
* Go `int64` counter values are `Int` together with explicit two's-complement
  wrap-around `wrap64` at each addition, matching Go overflow semantics.
* Files are modelled by their parsed content: `FileData.absent` (the path
  does not exist), `FileData.malformed` (present but not valid JSON for
  `[]models.Metrics`), `FileData.records ms` (a valid JSON array decoding
  to the record list `ms`).  `json.Marshal`/`json.Unmarshal` of the record
  array is taken as a faithful codec, so save/load work on record lists.
* Methods that mutate the receiver and return `error` become functions
  `State → … → State × Bool`, the `Bool` being "a non-nil error was
  returned" (the state component is the receiver after the call).
-/

/-- Wire/persisted metric record, from `models.Metrics`:
`{id, type, delta?, value?}`. -/
structure Metrics where
  ID : String
  MType : String
  Delta : Option Int := none
  Value : Option ℚ := none
deriving DecidableEq, Repr

/-- The gauge kind tag, `models.Gauge`. -/
def Gauge : String := "gauge"

/-- The counter kind tag, `models.Counter`. -/
def Counter : String := "counter"

/-- Go map lookup `v, ok := m[k]` on the association-list model. -/
def mapGet {α : Type} (m : List (String × α)) (k : String) : Option α :=
  match m with
  | [] => none
  | (k', v) :: rest => if k' = k then some v else mapGet rest k

/-- Go map assignment `m[k] = v` on the association-list model: replace the
value at `k` in place if present, append the binding otherwise. -/
def mapSet {α : Type} (m : List (String × α)) (k : String) (v : α) :
    List (String × α) :=
  match m with
  | [] => [(k, v)]
  | (k', v') :: rest =>
      if k' = k then (k', v) :: rest else (k', v') :: mapSet rest k v

/-- The keys of a map model, in order. -/
def mapKeys {α : Type} (m : List (String × α)) : List String :=
  m.map Prod.fst

/-- Two's-complement wrap of a mathematical integer into the `int64` range,
the semantics of Go `int64` addition overflow. -/
def wrap64 (n : Int) : Int :=
  (n + 9223372036854775808) % 18446744073709551616 - 9223372036854775808

/-- `n` is representable as a Go `int64`. -/
def isInt64 (n : Int) : Prop :=
  -9223372036854775808 ≤ n ∧ n ≤ 9223372036854775807

instance (n : Int) : Decidable (isInt64 n) := by
  unfold isInt64; infer_instance

/-- `repository.MemStorage`: the in-memory metrics store, two maps
`gauges : map[string]float64` and `counters : map[string]int64`.
(The `sync.RWMutex` disappears in this single-threaded embedding: every
method body runs under the lock, so a method call is one atomic step.) -/
structure MemStorage where
  gauges : List (String × ℚ)
  counters : List (String × Int)
deriving DecidableEq, Repr

namespace MemStorage

/-- `repository.NewMemStorage()`: empty storage. -/
def NewMemStorage : MemStorage := ⟨[], []⟩

/-- `MemStorage.UpdateGauge`: `s.gauges[name] = value`. -/
def UpdateGauge (s : MemStorage) (name : String) (value : ℚ) : MemStorage :=
  { s with gauges := mapSet s.gauges name value }

/-- `MemStorage.UpdateCounter`: `s.counters[name] += value`
(a missing key reads as `0`; the `int64` addition wraps). -/
def UpdateCounter (s : MemStorage) (name : String) (value : Int) : MemStorage :=
  { s with
      counters :=
        mapSet s.counters name
          (wrap64 ((mapGet s.counters name).getD 0 + value)) }

/-- `MemStorage.GetGauge`: `val, ok := s.gauges[name]; return val, ok`.
`some v` stands for `(v, true)`, `none` for `(0, false)`. -/
def GetGauge (s : MemStorage) (name : String) : Option ℚ :=
  mapGet s.gauges name

/-- `MemStorage.GetCounter`: `val, ok := s.counters[name]; return val, ok`. -/
def GetCounter (s : MemStorage) (name : String) : Option Int :=
  mapGet s.counters name

/-- `MemStorage.GetAllMetrics`: copies of both maps (copies are value
equality in the pure model). -/
def GetAllMetrics (s : MemStorage) : List (String × ℚ) × List (String × Int) :=
  (s.gauges, s.counters)

/-- One step of the loop body of `MemStorage.UpdateBatch`: `switch met.MType`,
skipping (`continue`) an entry whose required pointer field is nil, and
falling through the `switch` (no-op) for any other kind. -/
def applyBatchEntry (s : MemStorage) (met : Metrics) : MemStorage :=
  if met.MType = "gauge" then
    match met.Value with
    | none => s
    | some v => { s with gauges := mapSet s.gauges met.ID v }
  else if met.MType = "counter" then
    match met.Delta with
    | none => s
    | some d =>
        { s with
            counters :=
              mapSet s.counters met.ID
                (wrap64 ((mapGet s.counters met.ID).getD 0 + d)) }
  else s

/-- `MemStorage.UpdateBatch`: fold the loop body over the batch under one
critical section; `return nil` (the `Bool` is the "error returned" flag). -/
def UpdateBatch (s : MemStorage) (batch : List Metrics) : MemStorage × Bool :=
  (batch.foldl applyBatchEntry s, false)

/-- The record list serialized by `MemStorage.SaveToFile`: one record per
gauge (with `Value` set), then one per counter (with `Delta` set), mirroring
the two `for … range` loops. -/
def snapshotRecords (s : MemStorage) : List Metrics :=
  (s.gauges.map fun p => { ID := p.1, MType := "gauge", Value := some p.2 }) ++
    (s.counters.map fun p => { ID := p.1, MType := "counter", Delta := some p.2 })

end MemStorage

/-- Parsed content of a snapshot file path. -/
inductive FileData where
  | absent
  | malformed
  | records (ms : List Metrics)
deriving DecidableEq, Repr

namespace MemStorage

/-- `MemStorage.SaveToFile`: marshal the snapshot records and write them to
the file (the write itself is assumed to succeed; write errors are not
needed by any verified property). -/
def SaveToFile (s : MemStorage) : FileData :=
  FileData.records (snapshotRecords s)

/-- One step of the loop body of `MemStorage.LoadFromFile`: `switch mtr.MType`;
a gauge record with a non-nil `Value` does `s.gauges[mtr.ID] = *mtr.Value`, a
counter record with a non-nil `Delta` does `s.counters[mtr.ID] = *mtr.Delta`
(a raw absolute set, not an addition); everything else is skipped. -/
def applyRecord (s : MemStorage) (mtr : Metrics) : MemStorage :=
  if mtr.MType = "gauge" then
    match mtr.Value with
    | none => s
    | some v => { s with gauges := mapSet s.gauges mtr.ID v }
  else if mtr.MType = "counter" then
    match mtr.Delta with
    | none => s
    | some d => { s with counters := mapSet s.counters mtr.ID d }
  else s

/-- `MemStorage.LoadFromFile`: a missing file returns `nil` with no change;
an unmarshal failure returns the error before the mutation loop runs; a
parsed record array is applied record by record. The `Bool` is the
"error returned" flag; the first component is the storage after the call. -/
def LoadFromFile (s : MemStorage) (f : FileData) : MemStorage × Bool :=
  match f with
  | FileData.absent => (s, false)
  | FileData.malformed => (s, true)
  | FileData.records ms => (ms.foldl applyRecord s, false)

end MemStorage

/-! ### Audit notifier (`internal/audit`) -/

/-- `audit.Event`: `{ts, metrics, ip_address}`. -/
structure Event where
  TS : Int
  Metrics : List String
  IPAddress : String
deriving DecidableEq, Repr

/-- A sink (`audit.Sink`): the one capability `Send(ctx, ev) error`, modelled
by the success/failure outcome it produces for each event (`true` = nil
error). What a real sink does with the event is outside the engine. -/
structure SinkModel where
  send : Event → Bool

/-- `audit.Auditor`: the configured sink list. A Go `*Auditor` that may be
nil is `Option Auditor`. -/
structure Auditor where
  sinks : List SinkModel

namespace Auditor

/-- `Auditor.Enabled`: `a != nil && len(a.sinks) > 0`. -/
def Enabled : Option Auditor → Bool
  | none => false
  | some a => 0 < a.sinks.length

/-- `Auditor.Notify`: return immediately when not enabled; otherwise build
one event from the injected clock and call `Send` on every sink, discarding
(`_ =`) each sink's error. The result is the delivery log: for each sink in
order, the event handed to it and the success flag that was discarded.
(In Go the method returns nothing, so no sink failure can reach the caller;
the log is the observable effect of the loop.) -/
def Notify (a : Option Auditor) (metrics : List String) (ip : String)
    (now : Int) : List (Event × Bool) :=
  if Enabled a = false then []
  else
    match a with
    | none => []
    | some a =>
        let ev : Event := { TS := now, Metrics := metrics, IPAddress := ip }
        a.sinks.map fun s => (ev, s.send ev)

end Auditor

/-! ### Network audit sink (`internal/audit/http_sink.go`) -/

/-- The response-status handling of `HTTPSink.Send`, given the status code of
the HTTP response (marshalling, request construction and transport errors are
earlier, separate returns): `if resp.StatusCode >= 300 { return error }` else
`return nil`. -/
def sendStatusResult (status : Int) : Except String Unit :=
  if status ≥ 300 then
    Except.error ("audit sink HTTP status " ++ toString status)
  else Except.ok ()

/-! ### Batch update pipeline (`internal/handler/updates.go`) -/

/-- The core of `UpdatesHandler` after a successful JSON decode, on a storage
that implements `repository.BatchUpdater` (as `MemStorage` does): reject an
empty batch with 400; apply the whole batch through `UpdateBatch` (500 on a
storage error); on success collect `names` from every entry of the batch and
return them — this is the list handed to `aud.Notify` when the auditor is
enabled. -/
def updatesHandlerBatch (s : MemStorage) (batch : List Metrics) :
    Except String (MemStorage × List String) :=
  if batch.length = 0 then Except.error "empty batch"
  else
    let r := MemStorage.UpdateBatch s batch
    if r.2 then Except.error "storage error"
    else Except.ok (r.1, batch.map fun m => m.ID)

/-! ### Spec-side definitions

These follow the spec's words, for refinement comparisons against the
source-embedded definitions above. -/

/-- Spec-side step for one batch entry: apply it "as if each were a single
`SetGauge`/`AddCounter` call" when its required numeric field is present,
and "silently skip" it otherwise (also for a kind that is neither gauge nor
counter). -/
def specBatchStep (s : MemStorage) (met : Metrics) : MemStorage :=
  if met.MType = "gauge" then
    match met.Value with
    | some v => s.UpdateGauge met.ID v
    | none => s
  else if met.MType = "counter" then
    match met.Delta with
    | some d => s.UpdateCounter met.ID d
    | none => s
  else s

/-- One step of the spec-side "most recent write to `name`" scan. -/
def gaugeWriteStep (name : String) (acc : Option ℚ) (c : String × ℚ) :
    Option ℚ :=
  if c.1 = name then some c.2 else acc

/-- Spec-side "value of the most recent `UpdateGauge(name, v)`" over a call
sequence: scan the calls, remembering the latest value written to `name`. -/
def lastGaugeWrite (calls : List (String × ℚ)) (name : String) : Option ℚ :=
  calls.foldl (gaugeWriteStep name) none

/-- A sequence of `UpdateGauge` point calls, applied in order. -/
def applyGaugeCalls (s : MemStorage) (calls : List (String × ℚ)) : MemStorage :=
  calls.foldl (fun st c => st.UpdateGauge c.1 c.2) s

/-- One step of the spec-side "delta of the last counter record for `name`"
scan over a file's record list. -/
def counterRecStep (name : String) (acc : Option Int) (m : Metrics) :
    Option Int :=
  if m.MType = "counter" then
    match m.Delta with
    | some d => if m.ID = name then some d else acc
    | none => acc
  else acc

/-- Spec-side "the record's delta" for the last counter record naming `name`
(with a present delta) in a file's record list. -/
def lastCounterRecord (ms : List Metrics) (name : String) : Option Int :=
  ms.foldl (counterRecStep name) none

/-- Modelled from the spec: the "full set of updated names" of a batch — the
IDs of exactly those entries that `UpdateBatch` applies (required numeric
field present for a known kind), in batch order. -/
def updatedNames (batch : List Metrics) : List String :=
  (batch.filter fun m =>
      (m.MType == "gauge" && m.Value.isSome) ||
        (m.MType == "counter" && m.Delta.isSome)).map
    fun m => m.ID

/-- A sink that always fails, for concrete instantiations. -/
def alwaysFailSink : SinkModel := ⟨fun _ => false⟩

/-! ### Basic map lemmas -/

theorem mapGet_mapSet {α : Type} (m : List (String × α)) (k k' : String)
    (v : α) :
    mapGet (mapSet m k v) k' = if k = k' then some v else mapGet m k' := by
  induction m with
  | nil => simp [mapGet, mapSet]
  | cons hd tl ih =>
      obtain ⟨k₀, v₀⟩ := hd
      by_cases h₀ : k₀ = k
      · subst h₀
        by_cases h₁ : k₀ = k'
        · subst h₁; simp [mapGet, mapSet]
        · simp [mapGet, mapSet, h₁]
      · by_cases h₁ : k₀ = k'
        · subst h₁
          simp [mapGet, mapSet, h₀]
          rw [if_neg (fun h => h₀ h.symm)]
        · simp [mapGet, mapSet, h₀, h₁, ih]

/-! ### C1 -/

/-- C1: `MemStorage.UpdateBatch` applies each entry whose required numeric
field is present exactly as a single `UpdateGauge`/`UpdateCounter` call
would, in batch order, silently skips every entry whose required field for
its declared kind is missing, and returns no error: it equals the fold of
the spec-side per-entry step over the batch. -/
theorem updateBatch_refines_point_ops (s : MemStorage) (batch : List Metrics) :
    MemStorage.UpdateBatch s batch = (batch.foldl specBatchStep s, false) := by
  have hstep : MemStorage.applyBatchEntry = specBatchStep := by
    funext t met
    simp only [MemStorage.applyBatchEntry, specBatchStep,
      MemStorage.UpdateGauge, MemStorage.UpdateCounter]
    by_cases hg : met.MType = "gauge"
    · simp [hg]; cases met.Value <;> rfl
    · by_cases hc : met.MType = "counter"
      · simp [hg, hc]; cases met.Delta <;> rfl
      · simp [hg, hc]
  simp [MemStorage.UpdateBatch, hstep]

/-! ### C5 -/

/-- C5: `LoadFromFile` on a non-existent path returns a nil error and leaves
the storage unchanged; on a file that is not valid JSON for the record array
it returns an error and leaves the storage unchanged (the parse precedes any
mutation). -/
theorem load_absent_ok_malformed_error :
    (∀ s : MemStorage, s.LoadFromFile FileData.absent = (s, false)) ∧
      (∀ s : MemStorage, s.LoadFromFile FileData.malformed = (s, true)) :=
  ⟨fun _ => rfl, fun _ => rfl⟩

/-! ### C9 -/

/-- C9, counterexample: at response status 302 (a 3xx status), `Send` in
fact returns an error, so "returns nil iff the status is in the 2xx/3xx
range" fails. -/
theorem sendStatus_3xx_is_error_cex :
    ¬(sendStatusResult 302 = Except.ok () ↔
        (200 ≤ (302 : Int) ∧ (302 : Int) ≤ 399)) := by
  intro h
  have : sendStatusResult 302 = Except.ok () := h.mpr (by constructor <;> norm_num)
  simp [sendStatusResult] at this

/-- C9, amended: `HTTPSink.Send` reports success for a received response
exactly when the status code is below 300 (1xx/2xx), and returns an error
for every status ≥ 300 (including all 3xx). -/
theorem sendStatus_ok_iff_lt_300 (status : Int) :
    sendStatusResult status = Except.ok () ↔ status < 300 := by
  unfold sendStatusResult
  split <;> rename_i h
  · constructor
    · intro hh; cases hh
    · omega
  · simp; omega

/-! ### C10 -/

/-- C10: `MemStorage.UpdateBatch` never fails — it returns a nil error on
every batch — and an entry with an unknown kind (neither "gauge" nor
"counter") is silently skipped with no state change, exactly like an entry
missing its required field. -/
theorem updateBatch_never_fails_skips_unknown (s : MemStorage)
    (batch : List Metrics) :
    (MemStorage.UpdateBatch s batch).2 = false ∧
      (∀ met : Metrics, met.MType ≠ "gauge" → met.MType ≠ "counter" →
        MemStorage.applyBatchEntry s met = s) := by
  refine ⟨rfl, fun met h1 h2 => ?_⟩
  unfold MemStorage.applyBatchEntry
  rw [if_neg h1, if_neg h2]

/-- C10, witness at a concrete batch containing an unknown-kind entry. -/
theorem updateBatch_never_fails_skips_unknown_witness :
    (MemStorage.UpdateBatch MemStorage.NewMemStorage
        [{ ID := "x", MType := "histogram" }]).2 = false ∧
      MemStorage.applyBatchEntry MemStorage.NewMemStorage
          { ID := "x", MType := "histogram" } = MemStorage.NewMemStorage :=
  ⟨(updateBatch_never_fails_skips_unknown MemStorage.NewMemStorage
      [{ ID := "x", MType := "histogram" }]).1,
    (updateBatch_never_fails_skips_unknown MemStorage.NewMemStorage
        [{ ID := "x", MType := "histogram" }]).2
      { ID := "x", MType := "histogram" } (by decide) (by decide)⟩

/-! ### Arithmetic and point-operation lemmas -/

theorem wrap64_eq_self {n : Int} (h : isInt64 n) : wrap64 n = n := by
  unfold isInt64 at h
  unfold wrap64
  omega

theorem getCounter_updateCounter (s : MemStorage) (name name' : String)
    (d : Int) :
    (s.UpdateCounter name d).GetCounter name' =
      if name = name' then some (wrap64 ((s.GetCounter name).getD 0 + d))
      else s.GetCounter name' := by
  simpa [MemStorage.GetCounter, MemStorage.UpdateCounter] using
    mapGet_mapSet s.counters name name' (wrap64 ((mapGet s.counters name).getD 0 + d))

theorem getGauge_updateGauge (s : MemStorage) (name name' : String) (v : ℚ) :
    (s.UpdateGauge name v).GetGauge name' =
      if name = name' then some v else s.GetGauge name' := by
  simpa [MemStorage.GetGauge, MemStorage.UpdateGauge] using
    mapGet_mapSet s.gauges name name' v

theorem applyBatchEntry_counter (s : MemStorage) (id : String) (d : Int) :
    MemStorage.applyBatchEntry s { ID := id, MType := "counter", Delta := some d } =
      s.UpdateCounter id d := rfl

/-! ### C2 -/

/-- C2: starting from a state where counter `name` is absent, two
`UpdateCounter` calls with deltas `d1`, `d2` — as two point calls in either
order, or as two entries for the same name in one batch — leave `GetCounter
name` returning `d1 + d2` with found = true (for `int64`-representable
deltas and sum). -/
theorem addCounter_accumulates (s : MemStorage) (name : String) (d1 d2 : Int)
    (habs : s.GetCounter name = none)
    (h1 : isInt64 d1) (h2 : isInt64 d2) (h12 : isInt64 (d1 + d2)) :
    ((s.UpdateCounter name d1).UpdateCounter name d2).GetCounter name =
        some (d1 + d2) ∧
      ((s.UpdateCounter name d2).UpdateCounter name d1).GetCounter name =
        some (d1 + d2) ∧
      (MemStorage.UpdateBatch s
          [{ ID := name, MType := "counter", Delta := some d1 },
            { ID := name, MType := "counter", Delta := some d2 }]).1.GetCounter
          name = some (d1 + d2) := by
  have key : ∀ a b : Int, isInt64 a → isInt64 b → isInt64 (a + b) →
      ((s.UpdateCounter name a).UpdateCounter name b).GetCounter name =
        some (a + b) := by
    intro a b ha hb hab
    rw [getCounter_updateCounter, if_pos rfl, getCounter_updateCounter,
      if_pos rfl, habs]
    simp only [Option.getD_some, Option.getD_none, Int.zero_add]
    rw [wrap64_eq_self ha, wrap64_eq_self hab]
  refine ⟨key d1 d2 h1 h2 h12, ?_, ?_⟩
  · rw [Int.add_comm d1 d2] at h12 ⊢
    exact key d2 d1 h2 h1 h12
  · simp only [MemStorage.UpdateBatch, List.foldl_cons, List.foldl_nil]
    rw [applyBatchEntry_counter, applyBatchEntry_counter]
    exact key d1 d2 h1 h2 h12

/-- C2, witness: from the empty storage, deltas 5 and 3 accumulate to 8 on
all three paths. -/
theorem addCounter_accumulates_witness :
    ((MemStorage.NewMemStorage.UpdateCounter "c1" 5).UpdateCounter "c1" 3).GetCounter "c1" =
        some 8 ∧
      ((MemStorage.NewMemStorage.UpdateCounter "c1" 3).UpdateCounter "c1" 5).GetCounter "c1" =
        some 8 ∧
      (MemStorage.UpdateBatch MemStorage.NewMemStorage
          [{ ID := "c1", MType := "counter", Delta := some 5 },
            { ID := "c1", MType := "counter", Delta := some 3 }]).1.GetCounter
          "c1" = some 8 :=
  addCounter_accumulates MemStorage.NewMemStorage "c1" 5 3 (by decide)
    (by decide) (by decide) (by decide)

/-! ### C3 -/

theorem getGauge_applyGaugeCalls (calls : List (String × ℚ)) (s : MemStorage)
    (name : String) :
    (applyGaugeCalls s calls).GetGauge name =
      calls.foldl (gaugeWriteStep name) (s.GetGauge name) := by
  induction calls generalizing s with
  | nil => rfl
  | cons c cs ih =>
      have h1 : applyGaugeCalls s (c :: cs) =
          applyGaugeCalls (s.UpdateGauge c.1 c.2) cs := rfl
      rw [h1, ih, List.foldl_cons, getGauge_updateGauge]
      rfl

theorem gaugeScan_none_iff (name : String) (calls : List (String × ℚ)) :
    ∀ b : Option ℚ,
      calls.foldl (gaugeWriteStep name) b = none ↔
        b = none ∧ ∀ c ∈ calls, c.1 ≠ name := by
  induction calls with
  | nil => simp
  | cons c cs ih =>
      intro b
      rw [List.foldl_cons, ih]
      by_cases h : c.1 = name <;> simp [gaugeWriteStep, h]

/-- C3: applying any sequence of `UpdateGauge` calls to a fresh storage,
`GetGauge name` returns the value of the most recent `UpdateGauge(name, v)`
(last-write-wins, unconditional overwrite), and returns found = false
exactly when no call in the sequence set `name`. -/
theorem getGauge_last_write_wins (calls : List (String × ℚ)) (name : String) :
    (applyGaugeCalls MemStorage.NewMemStorage calls).GetGauge name =
        lastGaugeWrite calls name ∧
      ((applyGaugeCalls MemStorage.NewMemStorage calls).GetGauge name = none ↔
        ∀ c ∈ calls, c.1 ≠ name) := by
  have hbase : MemStorage.NewMemStorage.GetGauge name = none := rfl
  have h1 := getGauge_applyGaugeCalls calls MemStorage.NewMemStorage name
  rw [hbase] at h1
  refine ⟨h1, ?_⟩
  rw [h1, gaugeScan_none_iff]
  simp

/-! ### C6 -/

theorem getCounter_applyRecords (ms : List Metrics) (s : MemStorage)
    (name : String) :
    mapGet (ms.foldl MemStorage.applyRecord s).counters name =
      ms.foldl (counterRecStep name) (mapGet s.counters name) := by
  induction ms generalizing s with
  | nil => rfl
  | cons m ms ih =>
      rw [List.foldl_cons, List.foldl_cons, ih]
      congr 1
      unfold MemStorage.applyRecord counterRecStep
      by_cases hg : m.MType = "gauge"
      · simp only [hg, if_pos]
        cases m.Value <;> simp
      · by_cases hc : m.MType = "counter"
        · simp only [hg, hc, if_neg, if_pos, if_false]
          cases m.Delta with
          | none => simp [hg]
          | some d => simp [hg, mapGet_mapSet]
        · simp [hg, hc]

theorem counterScan_or (name : String) (ms : List Metrics) :
    ∀ b : Option Int,
      ms.foldl (counterRecStep name) b =
        (ms.foldl (counterRecStep name) none).or b := by
  induction ms with
  | nil => simp
  | cons m ms ih =>
      intro b
      rw [List.foldl_cons, List.foldl_cons, ih (counterRecStep name b m),
        ih (counterRecStep name none m)]
      have hstep : (∃ d : Int, counterRecStep name b m = some d ∧
            counterRecStep name none m = some d) ∨
          (counterRecStep name b m = b ∧ counterRecStep name none m = none) := by
        unfold counterRecStep
        by_cases hc : m.MType = "counter"
        · simp only [hc, if_pos]
          cases m.Delta with
          | none => right; simp
          | some d =>
              by_cases hid : m.ID = name
              · left; exact ⟨d, by simp [hid]⟩
              · right; simp [hid]
        · right; simp [hc]
      rcases hstep with ⟨d, h1, h2⟩ | ⟨h1, h2⟩
      · rw [h1, h2]
        cases ms.foldl (counterRecStep name) none <;> simp
      · rw [h1, h2]
        cases ms.foldl (counterRecStep name) none <;> simp

/-- C6: `LoadFromFile` replaces rather than accumulates: after loading a
record list whose last counter record for `name` (with a present delta)
carries delta `d`, the stored counter value for `name` is exactly `d`,
regardless of whatever value was previously in memory for that name. -/
theorem load_counter_replaces (s : MemStorage) (ms : List Metrics)
    (name : String) (d : Int) (h : lastCounterRecord ms name = some d) :
    (s.LoadFromFile (FileData.records ms)).1.GetCounter name = some d := by
  show mapGet (ms.foldl MemStorage.applyRecord s).counters name = some d
  rw [getCounter_applyRecords, counterScan_or]
  unfold lastCounterRecord at h
  rw [h]
  rfl

/-- C6, witness: a counter already holding 100 in memory is replaced by the
loaded record's delta 5 (not accumulated to 105). -/
theorem load_counter_replaces_witness :
    (MemStorage.LoadFromFile ⟨[], [("c1", 100)]⟩
        (FileData.records
          [{ ID := "c1", MType := "counter", Delta := some 5 }])).1.GetCounter
      "c1" = some 5 :=
  load_counter_replaces ⟨[], [("c1", 100)]⟩
    [{ ID := "c1", MType := "counter", Delta := some 5 }] "c1" 5 (by decide)

/-! ### C4 -/

theorem mapSet_of_not_mem {α : Type} (m : List (String × α)) (k : String)
    (v : α) (h : k ∉ mapKeys m) : mapSet m k v = m ++ [(k, v)] := by
  induction m with
  | nil => rfl
  | cons hd tl ih =>
      obtain ⟨k₀, v₀⟩ := hd
      have hk : k₀ ≠ k := by
        intro he; exact h (by simp [mapKeys, he])
      have htl : k ∉ mapKeys tl := by
        intro he; exact h (by simp [mapKeys] at he ⊢; right; exact he)
      simp [mapSet, hk, ih htl]

theorem foldl_gaugeRecords (gl : List (String × ℚ)) (t : MemStorage)
    (hnd : (mapKeys gl).Nodup)
    (hdisj : ∀ k ∈ mapKeys gl, k ∉ mapKeys t.gauges) :
    ((gl.map fun p =>
        ({ ID := p.1, MType := "gauge", Value := some p.2 } : Metrics)).foldl
      MemStorage.applyRecord t) = { t with gauges := t.gauges ++ gl } := by
  induction gl generalizing t with
  | nil => simp
  | cons p gl ih =>
      obtain ⟨k, v⟩ := p
      have hk : k ∉ mapKeys t.gauges := hdisj k (by simp [mapKeys])
      have hstep : MemStorage.applyRecord t
          { ID := k, MType := "gauge", Value := some v } =
            { t with gauges := t.gauges ++ [(k, v)] } := by
        unfold MemStorage.applyRecord
        simp [mapSet_of_not_mem t.gauges k v hk]
      rw [List.map_cons, List.foldl_cons, hstep,
        ih { t with gauges := t.gauges ++ [(k, v)] }
          (by simpa [mapKeys] using hnd.of_cons)
          (by
            intro k' hk'
            simp only [mapKeys, List.map_append] at *
            intro hmem
            rcases List.mem_append.1 hmem with hmem | hmem
            · exact hdisj k' (by simp [hk']) hmem
            · simp at hmem
              rw [hmem] at hk'
              exact (List.nodup_cons.1 (by simpa [mapKeys] using hnd)).1 hk')]
      simp

theorem foldl_counterRecords (cl : List (String × Int)) (t : MemStorage)
    (hnd : (mapKeys cl).Nodup)
    (hdisj : ∀ k ∈ mapKeys cl, k ∉ mapKeys t.counters) :
    ((cl.map fun p =>
        ({ ID := p.1, MType := "counter", Delta := some p.2 } : Metrics)).foldl
      MemStorage.applyRecord t) = { t with counters := t.counters ++ cl } := by
  induction cl generalizing t with
  | nil => simp
  | cons p cl ih =>
      obtain ⟨k, v⟩ := p
      have hk : k ∉ mapKeys t.counters := hdisj k (by simp [mapKeys])
      have hstep : MemStorage.applyRecord t
          { ID := k, MType := "counter", Delta := some v } =
            { t with counters := t.counters ++ [(k, v)] } := by
        unfold MemStorage.applyRecord
        simp [mapSet_of_not_mem t.counters k v hk]
      rw [List.map_cons, List.foldl_cons, hstep,
        ih { t with counters := t.counters ++ [(k, v)] }
          (by simpa [mapKeys] using hnd.of_cons)
          (by
            intro k' hk'
            simp only [mapKeys, List.map_append] at *
            intro hmem
            rcases List.mem_append.1 hmem with hmem | hmem
            · exact hdisj k' (by simp [hk']) hmem
            · simp at hmem
              rw [hmem] at hk'
              exact (List.nodup_cons.1 (by simpa [mapKeys] using hnd)).1 hk')]
      simp

/-- C4: saving any storage state with `SaveToFile` and loading the produced
file with `LoadFromFile` into a fresh empty storage succeeds and rebuilds a
storage whose gauge map and counter map equal the original's: every gauge
and counter value round-trips exactly. (The key lists of the two maps have
no duplicates, as Go maps guarantee.) -/
theorem save_load_roundtrip (s : MemStorage)
    (hg : (mapKeys s.gauges).Nodup) (hc : (mapKeys s.counters).Nodup) :
    MemStorage.NewMemStorage.LoadFromFile s.SaveToFile = (s, false) ∧
      (∀ k, (MemStorage.NewMemStorage.LoadFromFile s.SaveToFile).1.GetGauge k =
        s.GetGauge k) ∧
      ∀ k, (MemStorage.NewMemStorage.LoadFromFile s.SaveToFile).1.GetCounter k =
        s.GetCounter k := by
  have hmain : MemStorage.NewMemStorage.LoadFromFile s.SaveToFile = (s, false) := by
    show ((MemStorage.snapshotRecords s).foldl MemStorage.applyRecord
        MemStorage.NewMemStorage, false) = (s, false)
    unfold MemStorage.snapshotRecords
    rw [List.foldl_append]
    rw [foldl_gaugeRecords s.gauges MemStorage.NewMemStorage hg
      (by intro k _ hk; simp [MemStorage.NewMemStorage, mapKeys] at hk)]
    rw [foldl_counterRecords s.counters _ hc
      (by intro k _ hk; simp [MemStorage.NewMemStorage, mapKeys] at hk)]
    simp [MemStorage.NewMemStorage]
  exact ⟨hmain, fun k => by rw [hmain], fun k => by rw [hmain]⟩

/-- C4, witness at a concrete two-metric storage state. -/
theorem save_load_roundtrip_witness :
    MemStorage.NewMemStorage.LoadFromFile
        (MemStorage.SaveToFile ⟨[("g1", 1.23)], [("c1", 5)]⟩) =
      (⟨[("g1", 1.23)], [("c1", 5)]⟩, false) :=
  (save_load_roundtrip ⟨[("g1", 1.23)], [("c1", 5)]⟩ (by decide) (by decide)).1

/-! ### C7 -/

/-- C7: `Auditor.Notify` with a nil auditor or zero configured sinks is a
no-op with no event constructed and no delivery; with sinks configured it
builds exactly one event (timestamp from the injected clock) and hands that
same event to every configured sink, and — since the clause holds for
arbitrary sink behaviours and `Notify` returns nothing but the discarded
per-sink results — no sink failure is ever surfaced to the caller. -/
theorem notify_fanout_best_effort :
    (∀ (metrics : List String) (ip : String) (now : Int),
        Auditor.Notify none metrics ip now = []) ∧
      (∀ (metrics : List String) (ip : String) (now : Int),
        Auditor.Notify (some ⟨[]⟩) metrics ip now = []) ∧
      ∀ (a : Auditor) (metrics : List String) (ip : String) (now : Int),
        a.sinks ≠ [] →
          (Auditor.Notify (some a) metrics ip now).map Prod.fst =
            a.sinks.map fun _ =>
              { TS := now, Metrics := metrics, IPAddress := ip } := by
  refine ⟨fun _ _ _ => rfl, fun _ _ _ => rfl, fun a metrics ip now h => ?_⟩
  have hlen : (0 < a.sinks.length : Bool) = true := by
    simpa [List.length_pos] using h
  simp only [Auditor.Notify, Auditor.Enabled, hlen, Bool.true_eq_false,
    if_false, List.map_map]
  rfl

/-- C7, witness: one always-failing sink still receives the one event built
from the injected clock. -/
theorem notify_fanout_best_effort_witness :
    (Auditor.Notify (some ⟨[alwaysFailSink]⟩) ["m1"] "192.0.2.1" 42).map
        Prod.fst =
      [alwaysFailSink].map fun _ =>
        { TS := 42, Metrics := ["m1"], IPAddress := "192.0.2.1" } :=
  notify_fanout_best_effort.2.2 ⟨[alwaysFailSink]⟩ ["m1"] "192.0.2.1" 42
    (by simp)

/-! ### C8 -/

/-- C8, counterexample: a batch whose first entry (id "x", kind gauge, no
value) is silently skipped by `UpdateBatch` still gets "x" into the names
list handed to `Notify`: the handler passes the IDs of all batch entries,
not the names of the metrics actually updated ("x" is absent from the
resulting storage, yet is notified). -/
theorem notify_names_not_only_updated_cex :
    updatesHandlerBatch MemStorage.NewMemStorage
        [{ ID := "x", MType := "gauge" },
          { ID := "g", MType := "gauge", Value := some 1 }] =
      Except.ok (⟨[("g", 1)], []⟩, ["x", "g"]) ∧
      updatedNames
          [{ ID := "x", MType := "gauge" },
            { ID := "g", MType := "gauge", Value := some 1 }] = ["g"] ∧
      (MemStorage.UpdateBatch MemStorage.NewMemStorage
          [{ ID := "x", MType := "gauge" },
            { ID := "g", MType := "gauge", Value := some 1 }]).1.GetGauge "x" =
        none ∧
      (["x", "g"] : List String) ≠ ["g"] := by
  refine ⟨rfl, by decide, by decide, by decide⟩

/-- C8, amended: after a successful batch update through `UpdateBatch`, the
names list passed to `Notify` is the list of IDs of all entries of the
batch, in batch order — including entries that were silently skipped and
therefore not actually updated. -/
theorem notify_names_are_batch_ids (s : MemStorage) (batch : List Metrics)
    (h : batch ≠ []) :
    updatesHandlerBatch s batch =
      Except.ok ((MemStorage.UpdateBatch s batch).1, batch.map fun m => m.ID) := by
  unfold updatesHandlerBatch
  rw [if_neg (by simpa using h)]
  rfl

/-- C8, amended, witness at a concrete one-entry batch. -/
theorem notify_names_are_batch_ids_witness :
    updatesHandlerBatch MemStorage.NewMemStorage
        [{ ID := "a", MType := "counter", Delta := some 2 }] =
      Except.ok
        ((MemStorage.UpdateBatch MemStorage.NewMemStorage
            [{ ID := "a", MType := "counter", Delta := some 2 }]).1,
          ["a"]) :=
  notify_names_are_batch_ids MemStorage.NewMemStorage
    [{ ID := "a", MType := "counter", Delta := some 2 }] (by decide)
